import Mathlib

/-!
Verification of the Endpoint module of g-harel/trpc (src/index.ts).

The development shallowly embeds the runtime behavior of the module:

* a model of JSON values (`JsValue`) together with executable models of
  the platform primitives JSON.stringify (`stringify`) and JSON.parse
  (`parse`) that the module delegates serialization to;
* the Endpoint constructor's Config normalization (`Endpoint.construct`);
* the client-side `call` operation (`callCfg`);
* the server-side `handler` operation (`handlerCfg`);
* a small state-passing harness (`Endpoint.runAll`) that mirrors the fact
  that the Endpoint class holds its StrictConfig in a private field that
  the methods read but never assign.

Modeling notes.  TypeScript types are erased at runtime, so HTTP methods
are modeled as plain strings and status codes as natural numbers.  JSON
numbers are modeled as integers (the values occurring in the claims),
JavaScript strings as Lean strings, and a value on which JSON.stringify
throws (for example a circular structure) by the dedicated constructor
`JsValue.unserializable`.  The parser accepts the standard JSON grammar
restricted to integer numerals, with whitespace between tokens; control
characters other than newline, carriage return and tab are escaped by
`stringify` using the \u00XX form (JavaScript additionally uses the short
names \b and \f for two of them, which `parse` would accept equally).
-/

/- JSON-like runtime values.  `unserializable` stands for any value on
which JSON.stringify throws, such as a structure with circular
references. -/
mutual

inductive JsValue where
  | null
  | bool (b : Bool)
  | num (n : Int)
  | str (s : String)
  | arr (elems : JsList)
  | obj (fields : JsFields)
  | unserializable

inductive JsList where
  | nil
  | cons (head : JsValue) (tail : JsList)

inductive JsFields where
  | nil
  | cons (key : String) (value : JsValue) (tail : JsFields)

end

/-- Builds a JsList from a Lean list, for readable concrete values. -/
def jsList : List JsValue → JsList
  | [] => .nil
  | v :: vs => .cons v (jsList vs)

/-- Builds a JsFields from a Lean association list. -/
def jsFields : List (String × JsValue) → JsFields
  | [] => .nil
  | (k, v) :: kvs => .cons k v (jsFields kvs)

/- Size measure used as a fuel bound for the parser. -/
mutual

def szV : JsValue → Nat
  | .null => 1
  | .bool _ => 1
  | .num _ => 1
  | .str _ => 1
  | .arr xs => 1 + szL xs
  | .obj ms => 1 + szM ms
  | .unserializable => 1

def szL : JsList → Nat
  | .nil => 0
  | .cons h t => 1 + szV h + szL t

def szM : JsFields → Nat
  | .nil => 0
  | .cons _ v t => 1 + szV v + szM t

end

/-- Decimal digit character for a digit value below ten. -/
def digitChar (d : Nat) : Char := Char.ofNat (48 + d)

/-- Decimal rendering of a natural number, most significant digit first.
The fuel argument bounds the recursion; `natChars` supplies enough. -/
def natList : Nat → Nat → List Char
  | 0, _ => []
  | fuel + 1, n => if n < 10 then [digitChar n] else natList fuel (n / 10) ++ [digitChar (n % 10)]

/-- Decimal rendering of a natural number. -/
def natChars (n : Nat) : List Char := natList (n + 1) n

/-- Decimal rendering of an integer, with a leading minus sign when
negative, matching how JSON.stringify renders integral numbers. -/
def intChars (n : Int) : List Char :=
  if n < 0 then '-' :: natChars n.natAbs else natChars n.toNat

/-- Lowercase hexadecimal digit character for a value below sixteen. -/
def hexDigitChar (d : Nat) : Char :=
  if d < 10 then Char.ofNat (48 + d) else Char.ofNat (87 + d)

/-- Escaping of one character inside a JSON string literal, as performed
by JSON.stringify: quote, backslash and the common control characters get
two-character escapes and the remaining control characters the \u00XX
form; every other character stands for itself. -/
def escapeChar (c : Char) : List Char :=
  if c = '"' then ['\\', '"']
  else if c = '\\' then ['\\', '\\']
  else if c = '\n' then ['\\', 'n']
  else if c = '\r' then ['\\', 'r']
  else if c = '\t' then ['\\', 't']
  else if c.toNat < 32 then
    ['\\', 'u', '0', '0', hexDigitChar (c.toNat / 16), hexDigitChar (c.toNat % 16)]
  else [c]

/-- Escaping of a whole character sequence. -/
def escChars : List Char → List Char
  | [] => []
  | c :: cs => escapeChar c ++ escChars cs

/-- Rendering of a JSON string literal including the delimiting quotes. -/
def strLit (s : String) : List Char := '"' :: escChars s.data ++ ['"']

/- Model of JSON.stringify, producing none exactly when the value
contains an unserializable part (on which JSON.stringify throws). -/
mutual

def strV : JsValue → Option (List Char)
  | .null => some ['n', 'u', 'l', 'l']
  | .bool true => some ['t', 'r', 'u', 'e']
  | .bool false => some ['f', 'a', 'l', 's', 'e']
  | .num n => some (intChars n)
  | .str s => some (strLit s)
  | .arr .nil => some ['[', ']']
  | .arr (.cons h t) =>
    match strL (.cons h t) with
    | some l => some ('[' :: l ++ [']'])
    | none => none
  | .obj .nil => some ['\x7b', '\x7d']
  | .obj (.cons k v t) =>
    match strM (.cons k v t) with
    | some l => some ('\x7b' :: l ++ ['\x7d'])
    | none => none
  | .unserializable => none

def strL : JsList → Option (List Char)
  | .nil => some []
  | .cons h t =>
    match strV h, strL t with
    | some sh, some st =>
      some (sh ++ (match t with | .nil => [] | .cons _ _ => ',' :: st))
    | _, _ => none

def strM : JsFields → Option (List Char)
  | .nil => some []
  | .cons k v t =>
    match strV v, strM t with
    | some sv, some st =>
      some (strLit k ++ ':' :: sv ++ (match t with | .nil => [] | .cons _ _ _ => ',' :: st))
    | _, _ => none

end

/-- Model of JSON.stringify at the String level. -/
def stringify (v : JsValue) : Option String :=
  match strV v with
  | some cs => some (String.mk cs)
  | none => none

/-- JSON whitespace. -/
def isWsChar (c : Char) : Bool :=
  c = ' ' || c = '\n' || c = '\r' || c = '\t'

/-- Drops leading JSON whitespace. -/
def skipWs : List Char → List Char
  | [] => []
  | c :: cs => if isWsChar c then skipWs cs else c :: cs

/-- Decimal digit test on characters. -/
def isDigitChar (c : Char) : Bool := 48 ≤ c.toNat && c.toNat ≤ 57

/-- Numeric value of a hexadecimal digit character. -/
def hexVal (c : Char) : Option Nat :=
  if 48 ≤ c.toNat ∧ c.toNat ≤ 57 then some (c.toNat - 48)
  else if 97 ≤ c.toNat ∧ c.toNat ≤ 102 then some (c.toNat - 87)
  else if 65 ≤ c.toNat ∧ c.toNat ≤ 70 then some (c.toNat - 55)
  else none

/-- Consumes leading decimal digits, folding them onto an accumulator. -/
def readDigits : Nat → List Char → Nat × List Char
  | acc, [] => (acc, [])
  | acc, c :: cs =>
    if isDigitChar c then readDigits (acc * 10 + (c.toNat - 48)) cs else (acc, c :: cs)

/-- Parses the body of a JSON string literal after the opening quote,
returning the decoded characters and the input past the closing quote. -/
def parseStrChars : List Char → Option (List Char × List Char)
  | [] => none
  | c :: cs =>
    if c = '"' then some ([], cs)
    else if c = '\\' then
      match cs with
      | [] => none
      | e :: cs2 =>
        if e = '"' then (parseStrChars cs2).map (fun p => ('"' :: p.1, p.2))
        else if e = '\\' then (parseStrChars cs2).map (fun p => ('\\' :: p.1, p.2))
        else if e = '/' then (parseStrChars cs2).map (fun p => ('/' :: p.1, p.2))
        else if e = 'n' then (parseStrChars cs2).map (fun p => ('\n' :: p.1, p.2))
        else if e = 'r' then (parseStrChars cs2).map (fun p => ('\r' :: p.1, p.2))
        else if e = 't' then (parseStrChars cs2).map (fun p => ('\t' :: p.1, p.2))
        else if e = 'b' then (parseStrChars cs2).map (fun p => ('\x08' :: p.1, p.2))
        else if e = 'f' then (parseStrChars cs2).map (fun p => ('\x0c' :: p.1, p.2))
        else if e = 'u' then
          match cs2 with
          | h1 :: h2 :: h3 :: h4 :: cs3 =>
            match hexVal h1, hexVal h2, hexVal h3, hexVal h4 with
            | some a, some b, some c2, some d =>
              (parseStrChars cs3).map
                (fun p => (Char.ofNat (a * 4096 + b * 256 + c2 * 16 + d) :: p.1, p.2))
            | _, _, _, _ => none
          | _ => none
        else none
    else if c.toNat < 32 then none
    else (parseStrChars cs).map (fun p => (c :: p.1, p.2))

/- Recursive descent parser for JSON values over integer numerals.  The
fuel argument only bounds nesting; `parseChars` supplies enough fuel for
any input. -/
mutual

def parseVal : Nat → List Char → Option (JsValue × List Char)
  | 0, _ => none
  | fuel + 1, cs =>
    match skipWs cs with
    | [] => none
    | c :: cs1 =>
      if c = 'n' then
        match cs1 with
        | 'u' :: 'l' :: 'l' :: r => some (.null, r)
        | _ => none
      else if c = 't' then
        match cs1 with
        | 'r' :: 'u' :: 'e' :: r => some (.bool true, r)
        | _ => none
      else if c = 'f' then
        match cs1 with
        | 'a' :: 'l' :: 's' :: 'e' :: r => some (.bool false, r)
        | _ => none
      else if c = '"' then
        match parseStrChars cs1 with
        | some (s, r) => some (.str (String.mk s), r)
        | none => none
      else if c = '-' then
        match cs1 with
        | d :: _ =>
          if isDigitChar d then
            let p := readDigits 0 cs1
            some (.num (-(p.1 : Int)), p.2)
          else none
        | [] => none
      else if isDigitChar c then
        let p := readDigits 0 (c :: cs1)
        some (.num (p.1 : Int), p.2)
      else if c = '[' then
        match skipWs cs1 with
        | [] => none
        | c2 :: r =>
          if c2 = ']' then some (.arr .nil, r)
          else
            match parseElems fuel cs1 with
            | some (xs, r2) => some (.arr xs, r2)
            | none => none
      else if c = '\x7b' then
        match skipWs cs1 with
        | [] => none
        | c2 :: r =>
          if c2 = '\x7d' then some (.obj .nil, r)
          else
            match parseMembers fuel cs1 with
            | some (ms, r2) => some (.obj ms, r2)
            | none => none
      else none

def parseElems : Nat → List Char → Option (JsList × List Char)
  | 0, _ => none
  | fuel + 1, cs =>
    match parseVal fuel cs with
    | none => none
    | some (v, r) =>
      match skipWs r with
      | [] => none
      | c2 :: r2 =>
        if c2 = ',' then
          match parseElems fuel r2 with
          | some (xs, r3) => some (.cons v xs, r3)
          | none => none
        else if c2 = ']' then some (.cons v .nil, r2)
        else none

def parseMembers : Nat → List Char → Option (JsFields × List Char)
  | 0, _ => none
  | fuel + 1, cs =>
    match skipWs cs with
    | [] => none
    | c0 :: cs1 =>
      if c0 = '"' then
        match parseStrChars cs1 with
        | none => none
        | some (kcs, r1) =>
          match skipWs r1 with
          | [] => none
          | c1 :: r2 =>
            if c1 = ':' then
              match parseVal fuel r2 with
              | none => none
              | some (v, r3) =>
                match skipWs r3 with
                | [] => none
                | c3 :: r4 =>
                  if c3 = ',' then
                    match parseMembers fuel r4 with
                    | some (ms, r5) => some (.cons (String.mk kcs) v ms, r5)
                    | none => none
                  else if c3 = '\x7d' then some (.cons (String.mk kcs) v .nil, r4)
                  else none
            else none
      else none

end

/-- Parses a whole character sequence as one JSON value, allowing
trailing whitespace only, as JSON.parse does. -/
def parseChars (cs : List Char) : Option JsValue :=
  match parseVal (2 * cs.length + 2) cs with
  | some (v, r) => if skipWs r = [] then some v else none
  | none => none

/-- Model of JSON.parse: none exactly where JSON.parse would throw. -/
def parse (s : String) : Option JsValue := parseChars s.data




/-- A list that does not begin with a decimal digit; a number token
followed by such a list parses without absorbing anything past it. -/
def headNotDigit : List Char → Prop
  | [] => True
  | c :: _ => isDigitChar c = false

/-- The expect field of a Config: one status code or an array of codes
(src/index.ts line 33).  Status codes are modeled as naturals. -/
inductive ExpectSpec where
  | one (s : Nat)
  | many (l : List Nat)

/-- Runtime model of the Config interface (src/index.ts lines 15 to 34).
Optional fields are Options; a present-but-empty string is modeled as
some "" since JavaScript treats it as falsy in the constructor. -/
structure Config where
  method : Option String
  base : Option String
  path : Option String
  expect : Option ExpectSpec

/-- The constructor argument: a bare path string or a Config object
(src/index.ts line 80). -/
inductive PathOrConfig where
  | pathStr (p : String)
  | config (c : Config)

/-- The normalized configuration held by an Endpoint
(src/index.ts lines 42 to 47). -/
structure StrictConfig where
  method : String
  base : String
  path : String
  expect : List Nat

/-- JavaScript `value || dflt` on an optional string: undefined and the
empty string are falsy and give the default. -/
def jsOrStr : Option String → String → String
  | none, d => d
  | some s, d => if s = "" then d else s

/-- Normalization `[].concat(expect || 200)` of src/index.ts line 92: an
absent expect defaults to 200, a single status is wrapped in a
one-element array, an array (even an empty one, which is truthy in
JavaScript) is kept as is. -/
def normExpect : Option ExpectSpec → List Nat
  | none => [200]
  | some (.one s) => [s]
  | some (.many l) => l

/-- The body of the Endpoint constructor (src/index.ts lines 80 to 94):
a bare string is promoted to a Config whose other fields are absent, and
each field is defaulted with JavaScript `||`. -/
def Endpoint.fromConfig (c : Config) : StrictConfig :=
  { path := jsOrStr c.path "/"
    base := jsOrStr c.base ""
    method := jsOrStr c.method "POST"
    expect := normExpect c.expect }

def Endpoint.construct : PathOrConfig → StrictConfig
  | .pathStr p => Endpoint.fromConfig
      { method := none, base := none, path := some p, expect := none }
  | .config c => Endpoint.fromConfig c

/-- Header mappings (src/index.ts lines 37 to 39), as association lists
in which a later binding overrides an earlier one, the behavior of
successive JavaScript object assignments. -/
abbrev HeaderList := List (String × String)

/-- Lookup in a header list: the latest binding of a name wins, which is
how repeated Object.assign writes behave. -/
def hLookup : HeaderList → String → Option String
  | [], _ => none
  | (k, v) :: rest, name =>
    match hLookup rest name with
    | some w => some w
    | none => if k = name then some v else none

/-- Concatenation of header fragments, the model of
`Object.assign(target, ...h)` spreading sources left to right. -/
def flatAll : List HeaderList → HeaderList
  | [] => []
  | h :: t => h ++ flatAll t

/-- The default header object built at src/index.ts lines 123 to 128. -/
def defaultHeaders : HeaderList := [("Content-Type", "application/json")]

/-- The rightmost fragment that defines a name, and its value there:
the specification language for the left-to-right merge. -/
def lastDefined : List HeaderList → String → Option String
  | [], _ => none
  | h :: t, name =>
    match lastDefined t name with
    | some v => some v
    | none => hLookup h name

/-- The request object handed to the sender (src/link.ts shape used at
src/index.ts line 132). -/
structure SenderRequest where
  method : String
  url : String
  body : String
  headers : HeaderList

/-- The response object returned by the sender. -/
structure SenderResponse where
  body : String
  status : Nat

/-- A sender either resolves with a response or rejects with a message. -/
def Sender := SenderRequest → Except String SenderResponse

/-- The distinct rejection reasons of `call`; each constructor carries
the data that `this.error` interpolates into the thrown message
(src/index.ts lines 113 to 147). -/
inductive CallError where
  | requestStringifyFailed
  | sendFailed (msg : String)
  | unexpectedStatus (status : Nat) (body : String)
  | responseParseFailed (body : String)

/-- JavaScript `Array.prototype.indexOf`, returning the index of the
first occurrence or -1. -/
def jsIndexOfFrom : List Nat → Nat → Nat → Int
  | [], _, _ => -1
  | y :: ys, x, i => if y = x then (i : Int) else jsIndexOfFrom ys x (i + 1)

def jsIndexOf (l : List Nat) (x : Nat) : Int := jsIndexOfFrom l x 0

/-- The sender request built by `call` (src/index.ts lines 121 to 128):
url is base concatenated with path and the headers merge a
Content-Type default with the caller's fragments left to right. -/
def mkSenderRequest (cfg : StrictConfig) (body : String) (frags : List HeaderList) :
    SenderRequest :=
  { method := cfg.method
    url := cfg.base ++ cfg.path
    body := body
    headers := defaultHeaders ++ flatAll frags }

/-- The part of `call` after the sender settles (src/index.ts lines 130
to 147): a rejected send is wrapped, a status outside the expect array
rejects with the status and raw body, otherwise the body is parsed as
JSON. -/
def finishCall (cfg : StrictConfig) (result : Except String SenderResponse) :
    Except CallError JsValue :=
  match result with
  | .error e => .error (.sendFailed e)
  | .ok res =>
    if jsIndexOf cfg.expect res.status < 0 then
      .error (.unexpectedStatus res.status res.body)
    else
      match parse res.body with
      | none => .error (.responseParseFailed res.body)
      | some v => .ok v

/-- The `call` method (src/index.ts lines 113 to 147) for a given
configuration and sender. -/
def callCfg (cfg : StrictConfig) (sender : Sender) (requestData : JsValue)
    (h : List HeaderList) : Except CallError JsValue :=
  match stringify requestData with
  | none => .error .requestStringifyFailed
  | some body => finishCall cfg (sender (mkSenderRequest cfg body h))

/-- The incoming express request as the handler observes it: path,
method, whether a response was already sent when the handler runs, and
the fully streamed body text. -/
structure Request where
  path : String
  method : String
  headersSent : Bool
  body : String

/-- Outcome of invoking the user-supplied request handler: it returns a
value (having possibly written the response itself, tracked by `sent`),
or it throws or rejects. -/
inductive UserOutcome where
  | ok (result : JsValue) (sent : Bool)
  | thrown (msg : String)

/-- The user handler receives the parsed data and the request object
(the express response object is reflected in UserOutcome.sent). -/
def UserHandler := JsValue → Request → UserOutcome

/-- The error values the produced handler can construct
(src/index.ts lines 165 to 204). -/
inductive HError where
  | responseAlreadySent
  | requestParseFailed (raw : String)
  | handlerThrew (msg : String)
  | responseSentByHandler
  | responseStringifyFailed

/-- Observable outcome of one run of the produced express handler:
pass the request on with next(), forward an error with next(e), send a
response, or return an Error object from the async callback without
either sending or forwarding (the behavior of line 203, whose `return
this.error(...)` lacks the `next`). -/
inductive HandlerOutcome where
  | next
  | nextWithError (e : HError)
  | respond (status : Nat) (contentType : String) (body : String)
  | errorReturned (e : HError)

/-- The handler produced by `Endpoint.handler` (src/index.ts lines 151
to 210), as a function of the user handler and the incoming request. -/
def handlerCfg (cfg : StrictConfig) (uh : UserHandler) (req : Request) :
    HandlerOutcome :=
  if req.path ≠ cfg.path then .next
  else if req.method ≠ cfg.method then .next
  else if req.headersSent then .nextWithError .responseAlreadySent
  else
    match parse req.body with
    | none => .nextWithError (.requestParseFailed req.body)
    | some requestData =>
      match uh requestData req with
      | .thrown m => .nextWithError (.handlerThrew m)
      | .ok responseData sent =>
        if sent then .nextWithError .responseSentByHandler
        else
          match stringify responseData with
          | none => .errorReturned .responseStringifyFailed
          | some raw => .respond 200 "application/json" raw

/-- An Endpoint holds its normalized configuration in a private field
(src/index.ts line 78). -/
structure Endpoint where
  config : StrictConfig

/-- Construction of an Endpoint (the class constructor). -/
def Endpoint.make (poc : PathOrConfig) : Endpoint :=
  { config := Endpoint.construct poc }

/-- One invocation against an Endpoint instance: a client-side call or
the handling of one incoming request. -/
inductive Invoke where
  | doCall (sender : Sender) (data : JsValue) (frags : List HeaderList)
  | doHandle (uh : UserHandler) (req : Request)

/-- The observable result of one invocation. -/
inductive EventOut where
  | callResult (r : Except CallError JsValue)
  | handleResult (o : HandlerOutcome)

/-- State-passing form of one method invocation: the methods read
`this.config` and never assign to it, so the endpoint state is returned
as is. -/
def Endpoint.step (e : Endpoint) : Invoke → EventOut × Endpoint
  | .doCall sender data frags => (.callResult (callCfg e.config sender data frags), e)
  | .doHandle uh req => (.handleResult (handlerCfg e.config uh req), e)

/-- Runs a sequence of invocations, threading the endpoint state. -/
def Endpoint.runAll (e : Endpoint) : List Invoke → Endpoint
  | [] => e
  | i :: is => Endpoint.runAll (e.step i).2 is

/-- Concrete configuration from the bare path "/echo". -/
def cfgEcho : StrictConfig := Endpoint.construct (.pathStr "/echo")

/-- Concrete configuration with expect given as the single status 201. -/
def cfgExpect201 : StrictConfig := Endpoint.construct (.config
  { method := none, base := none, path := some "/echo", expect := some (.one 201) })

/-- Concrete configuration for the handler scenarios (path /foo,
default method POST). -/
def cfgFoo : StrictConfig := Endpoint.construct (.config
  { method := none, base := none, path := some "/foo", expect := none })

/-- A sender that resolves with status 200 and the non-JSON body "ok". -/
def senderOk200 : Sender := fun _ => .ok { body := "ok", status := 200 }

/-- A sender that resolves with status 200 and a JSON object body. -/
def senderJson42 : Sender := fun _ => .ok { body := "\x7b\"v\":42\x7d", status := 200 }

/-- The parsed value of the senderJson42 body. -/
def vObj42 : JsValue := .obj (.cons "v" (.num 42) .nil)

def reqFooGet : Request :=
  { path := "/foo", method := "GET", headersSent := false, body := "\x7b\x7d" }

def reqBarPost : Request :=
  { path := "/bar", method := "POST", headersSent := false, body := "\x7b\x7d" }

def reqFooPost : Request :=
  { path := "/foo", method := "POST", headersSent := false, body := "\x7b\x7d" }

def reqFooPostSent : Request :=
  { path := "/foo", method := "POST", headersSent := true, body := "\x7b\x7d" }

def reqFooPostBadBody : Request :=
  { path := "/foo", method := "POST", headersSent := false, body := "ok" }

def uhConst1 : UserHandler := fun _ _ => .ok (.num 1) false

def uhThrows : UserHandler := fun _ _ => .thrown "boom"

def uhSends : UserHandler := fun _ _ => .ok (.num 1) true

def uhCircular : UserHandler := fun _ _ => .ok .unserializable false

theorem digitChar_spec : ∀ d, d < 10 →
    isDigitChar (digitChar d) = true ∧ (digitChar d).toNat = 48 + d ∧
    isWsChar (digitChar d) = false ∧ digitChar d ≠ ']' ∧ digitChar d ≠ '\x7d' := by
  decide

theorem hexDigit_spec : ∀ d, d < 16 → hexVal (hexDigitChar d) = some d := by
  decide

theorem isDigitChar_bounds {c : Char} (h : isDigitChar c = true) :
    48 ≤ c.toNat ∧ c.toNat ≤ 57 := by
  simpa [isDigitChar] using h

theorem digit_not_lit {c : Char} (h : isDigitChar c = true) {d : Char}
    (hd : isDigitChar d = false) : c ≠ d := by
  intro he
  subst he
  rw [h] at hd
  simp at hd

theorem digit_not_ws {c : Char} (h : isDigitChar c = true) : isWsChar c = false := by
  have h1 : c ≠ ' ' := by intro he; subst he; exact absurd h (by decide)
  have h2 : c ≠ '\n' := by intro he; subst he; exact absurd h (by decide)
  have h3 : c ≠ '\r' := by intro he; subst he; exact absurd h (by decide)
  have h4 : c ≠ '\t' := by intro he; subst he; exact absurd h (by decide)
  simp [isWsChar, h1, h2, h3, h4]

theorem skipWs_cons_of {c : Char} (h : isWsChar c = false) (l : List Char) :
    skipWs (c :: l) = c :: l := by
  simp [skipWs, h]

theorem readDigits_stop {n : Nat} {rest : List Char} (h : headNotDigit rest) :
    readDigits n rest = (n, rest) := by
  cases rest with
  | nil => rfl
  | cons c cs => simp [readDigits, headNotDigit] at h ⊢; simp [h]

theorem natList_head : ∀ fuel n, n < fuel →
    ∃ c cs, natList fuel n = c :: cs ∧ isDigitChar c = true := by
  intro fuel
  induction fuel with
  | zero => intro n h; omega
  | succ f ih =>
    intro n h
    by_cases h10 : n < 10
    · exact ⟨digitChar n, [], by simp [natList, h10], (digitChar_spec n h10).1⟩
    · have hf : n / 10 < f := by
        have h1 : n / 10 < n := Nat.div_lt_self (by omega) (by omega)
        omega
      obtain ⟨c, cs, hl, hd⟩ := ih (n / 10) hf
      exact ⟨c, cs ++ [digitChar (n % 10)], by simp [natList, h10, hl], hd⟩

theorem readDigits_natList : ∀ fuel n, n < fuel →
    ∃ m, 0 < m ∧ ∀ acc rest,
      readDigits acc (natList fuel n ++ rest) = readDigits (acc * m + n) rest := by
  intro fuel
  induction fuel with
  | zero => intro n h; omega
  | succ f ih =>
    intro n h
    by_cases h10 : n < 10
    · refine ⟨10, by omega, fun acc rest => ?_⟩
      obtain ⟨hdig, htn, -⟩ := digitChar_spec n h10
      simp [natList, h10, readDigits, hdig, htn]
    · have hf : n / 10 < f := by
        have h1 : n / 10 < n := Nat.div_lt_self (by omega) (by omega)
        omega
      obtain ⟨m, hm, hrec⟩ := ih (n / 10) hf
      refine ⟨m * 10, by omega, fun acc rest => ?_⟩
      obtain ⟨hdig, htn, -⟩ := digitChar_spec (n % 10) (Nat.mod_lt n (by omega))
      have : natList (f + 1) n ++ rest = natList f (n / 10) ++ (digitChar (n % 10) :: rest) := by
        simp [natList, h10]
      rw [this, hrec]
      simp only [readDigits, hdig, htn, if_pos]
      have harith : (acc * m + n / 10) * 10 + (48 + n % 10 - 48) = acc * (m * 10) + n := by
        have := Nat.div_add_mod n 10
        ring_nf
        omega
      rw [harith]

theorem readDigits_natChars {n : Nat} {rest : List Char} (h : headNotDigit rest) :
    readDigits 0 (natChars n ++ rest) = (n, rest) := by
  obtain ⟨m, hm, hrec⟩ := readDigits_natList (n + 1) n (by omega)
  rw [natChars, hrec, Nat.zero_mul, Nat.zero_add, readDigits_stop h]

theorem natChars_head (n : Nat) :
    ∃ c cs, natChars n = c :: cs ∧ isDigitChar c = true :=
  natList_head (n + 1) n (by omega)

theorem parseVal_succ_null (fuel : Nat) (rest : List Char) :
    parseVal (fuel + 1) ('n' :: 'u' :: 'l' :: 'l' :: rest) = some (.null, rest) := rfl

theorem parseVal_succ_true (fuel : Nat) (rest : List Char) :
    parseVal (fuel + 1) ('t' :: 'r' :: 'u' :: 'e' :: rest) = some (.bool true, rest) := rfl

theorem parseVal_succ_false (fuel : Nat) (rest : List Char) :
    parseVal (fuel + 1) ('f' :: 'a' :: 'l' :: 's' :: 'e' :: rest) = some (.bool false, rest) := rfl

theorem parseVal_succ_str (fuel : Nat) (X : List Char) :
    parseVal (fuel + 1) ('"' :: X) =
      match parseStrChars X with
      | some (s, r) => some (.str (String.mk s), r)
      | none => none := rfl

theorem parseVal_succ_arrNil (fuel : Nat) (rest : List Char) :
    parseVal (fuel + 1) ('[' :: ']' :: rest) = some (.arr .nil, rest) := rfl

theorem parseVal_succ_objNil (fuel : Nat) (rest : List Char) :
    parseVal (fuel + 1) ('\x7b' :: '\x7d' :: rest) = some (.obj .nil, rest) := rfl

theorem parseVal_succ_digit (fuel : Nat) {c : Char} (hc : isDigitChar c = true)
    (X : List Char) :
    parseVal (fuel + 1) (c :: X) =
      some (.num ((readDigits 0 (c :: X)).1 : Int), (readDigits 0 (c :: X)).2) := by
  have h0 := digit_not_ws hc
  have hn := digit_not_lit hc (show isDigitChar 'n' = false by decide)
  have ht := digit_not_lit hc (show isDigitChar 't' = false by decide)
  have hf := digit_not_lit hc (show isDigitChar 'f' = false by decide)
  have hq := digit_not_lit hc (show isDigitChar '"' = false by decide)
  have hm := digit_not_lit hc (show isDigitChar '-' = false by decide)
  simp only [parseVal, skipWs_cons_of h0]
  rw [if_neg hn, if_neg ht, if_neg hf, if_neg hq, if_neg hm, if_pos hc]

theorem parseVal_succ_neg (fuel : Nat) {c : Char} (hc : isDigitChar c = true)
    (X : List Char) :
    parseVal (fuel + 1) ('-' :: c :: X) =
      some (.num (-((readDigits 0 (c :: X)).1 : Int)), (readDigits 0 (c :: X)).2) := by
  simp only [parseVal, skipWs_cons_of (show isWsChar '-' = false by decide)]
  rw [if_neg (by decide), if_neg (by decide), if_neg (by decide), if_neg (by decide)]
  simp only [if_true]
  rw [if_pos hc]

theorem parseVal_succ_arr (fuel : Nat) {c : Char} (hws : isWsChar c = false)
    (hne : c ≠ ']') (X : List Char) :
    parseVal (fuel + 1) ('[' :: c :: X) =
      match parseElems fuel (c :: X) with
      | some (xs, r2) => some (.arr xs, r2)
      | none => none := by
  simp only [parseVal, skipWs_cons_of (show isWsChar '[' = false by decide)]
  rw [if_neg (by decide), if_neg (by decide), if_neg (by decide), if_neg (by decide),
    if_neg (by decide), if_neg (by decide)]
  simp only [if_true, skipWs_cons_of hws]
  rw [if_neg hne]

theorem parseVal_succ_obj (fuel : Nat) {c : Char} (hws : isWsChar c = false)
    (hne : c ≠ '\x7d') (X : List Char) :
    parseVal (fuel + 1) ('\x7b' :: c :: X) =
      match parseMembers fuel (c :: X) with
      | some (ms, r2) => some (.obj ms, r2)
      | none => none := by
  simp only [parseVal, skipWs_cons_of (show isWsChar '\x7b' = false by decide)]
  rw [if_neg (by decide), if_neg (by decide), if_neg (by decide), if_neg (by decide),
    if_neg (by decide), if_neg (by decide), if_neg (by decide)]
  simp only [if_true, skipWs_cons_of hws]
  rw [if_neg hne]

theorem psc_quote (X : List Char) :
    parseStrChars ('\\' :: '"' :: X) = (parseStrChars X).map (fun p => ('"' :: p.1, p.2)) := by
  rw [parseStrChars.eq_def]
  simp

theorem psc_backslash (X : List Char) :
    parseStrChars ('\\' :: '\\' :: X) = (parseStrChars X).map (fun p => ('\\' :: p.1, p.2)) := by
  rw [parseStrChars.eq_def]
  simp

theorem psc_newline (X : List Char) :
    parseStrChars ('\\' :: 'n' :: X) = (parseStrChars X).map (fun p => ('\n' :: p.1, p.2)) := by
  rw [parseStrChars.eq_def]
  simp

theorem psc_creturn (X : List Char) :
    parseStrChars ('\\' :: 'r' :: X) = (parseStrChars X).map (fun p => ('\r' :: p.1, p.2)) := by
  rw [parseStrChars.eq_def]
  simp

theorem psc_tab (X : List Char) :
    parseStrChars ('\\' :: 't' :: X) = (parseStrChars X).map (fun p => ('\t' :: p.1, p.2)) := by
  rw [parseStrChars.eq_def]
  simp

theorem psc_unicode {c : Char} (hc : c.toNat < 32) (X : List Char) :
    parseStrChars ('\\' :: 'u' :: '0' :: '0' ::
        hexDigitChar (c.toNat / 16) :: hexDigitChar (c.toNat % 16) :: X) =
      (parseStrChars X).map (fun p => (c :: p.1, p.2)) := by
  have hd1 : hexVal (hexDigitChar (c.toNat / 16)) = some (c.toNat / 16) :=
    hexDigit_spec _ (by omega)
  have hd2 : hexVal (hexDigitChar (c.toNat % 16)) = some (c.toNat % 16) :=
    hexDigit_spec _ (by omega)
  rw [parseStrChars.eq_def]
  simp only [hd1, hd2]
  simp [show hexVal '0' = some 0 from rfl]
  have key : c.toNat / 16 * 16 + c.toNat % 16 = c.toNat := by omega
  rw [key, Char.ofNat_toNat]

theorem psc_plain {c : Char} (h1 : c ≠ '"') (h2 : c ≠ '\\') (h3 : ¬c.toNat < 32)
    (X : List Char) :
    parseStrChars (c :: X) = (parseStrChars X).map (fun p => (c :: p.1, p.2)) := by
  rw [parseStrChars.eq_def]
  simp [h1, h2, h3]

theorem escapeChar_plain {c : Char} (h1 : c ≠ '"') (h2 : c ≠ '\\') (h3 : c ≠ '\n')
    (h4 : c ≠ '\r') (h5 : c ≠ '\t') (h6 : ¬c.toNat < 32) : escapeChar c = [c] := by
  simp [escapeChar, h1, h2, h3, h4, h5, h6]

theorem escapeChar_unicode {c : Char} (h1 : c ≠ '\n') (h2 : c ≠ '\r') (h3 : c ≠ '\t')
    (h6 : c.toNat < 32) :
    escapeChar c = ['\\', 'u', '0', '0', hexDigitChar (c.toNat / 16), hexDigitChar (c.toNat % 16)] := by
  have hq : c ≠ '"' := by intro he; subst he; exact absurd h6 (by decide)
  have hb : c ≠ '\\' := by intro he; subst he; exact absurd h6 (by decide)
  simp [escapeChar, hq, hb, h1, h2, h3, h6]

theorem parseStrChars_esc : ∀ (cs rest : List Char),
    parseStrChars (escChars cs ++ '"' :: rest) = some (cs, rest) := by
  intro cs
  induction cs with
  | nil =>
    intro rest
    show parseStrChars ([] ++ '"' :: rest) = some ([], rest)
    rw [List.nil_append, parseStrChars.eq_def]
    simp
  | cons c cs ih =>
    intro rest
    have hstep : escChars (c :: cs) ++ '"' :: rest =
        escapeChar c ++ (escChars cs ++ '"' :: rest) := by
      simp [escChars]
    rw [hstep]
    by_cases h1 : c = '"'
    · subst h1
      rw [show escapeChar '"' = ['\\', '"'] from rfl]
      simp only [List.cons_append, List.nil_append]
      rw [psc_quote, ih]
      rfl
    · by_cases h2 : c = '\\'
      · subst h2
        rw [show escapeChar '\\' = ['\\', '\\'] from rfl]
        simp only [List.cons_append, List.nil_append]
        rw [psc_backslash, ih]
        rfl
      · by_cases h3 : c = '\n'
        · subst h3
          rw [show escapeChar '\n' = ['\\', 'n'] from rfl]
          simp only [List.cons_append, List.nil_append]
          rw [psc_newline, ih]
          rfl
        · by_cases h4 : c = '\r'
          · subst h4
            rw [show escapeChar '\r' = ['\\', 'r'] from rfl]
            simp only [List.cons_append, List.nil_append]
            rw [psc_creturn, ih]
            rfl
          · by_cases h5 : c = '\t'
            · subst h5
              rw [show escapeChar '\t' = ['\\', 't'] from rfl]
              simp only [List.cons_append, List.nil_append]
              rw [psc_tab, ih]
              rfl
            · by_cases h6 : c.toNat < 32
              · rw [escapeChar_unicode h3 h4 h5 h6]
                simp only [List.cons_append, List.nil_append]
                rw [psc_unicode h6, ih]
                rfl
              · rw [escapeChar_plain h1 h2 h3 h4 h5 h6]
                simp only [List.cons_append, List.nil_append]
                rw [psc_plain h1 h2 h6, ih]
                rfl

theorem natChars_ne_nil (n : Nat) : natChars n ≠ [] := by
  obtain ⟨c, cs, he, -⟩ := natChars_head n
  simp [he]

theorem strV_head : ∀ v s, strV v = some s →
    ∃ c cs, s = c :: cs ∧ isWsChar c = false ∧ c ≠ ']' ∧ c ≠ '\x7d' := by
  intro v s h
  cases v with
  | null =>
    simp [strV] at h
    exact ⟨'n', _, h.symm, by decide, by decide, by decide⟩
  | bool b =>
    cases b <;> simp [strV] at h
    · exact ⟨'f', _, h.symm, by decide, by decide, by decide⟩
    · exact ⟨'t', _, h.symm, by decide, by decide, by decide⟩
  | num n =>
    simp [strV, intChars] at h
    by_cases hn : n < 0
    · rw [if_pos hn] at h
      exact ⟨'-', _, h.symm, by decide, by decide, by decide⟩
    · rw [if_neg hn] at h
      obtain ⟨c, cs, heq, hd⟩ := natChars_head n.toNat
      refine ⟨c, cs, by rw [← h, heq], digit_not_ws hd, ?_, ?_⟩
      · exact digit_not_lit hd (by decide)
      · exact digit_not_lit hd (by decide)
  | str s0 =>
    simp [strV, strLit] at h
    exact ⟨'"', _, h.symm, by decide, by decide, by decide⟩
  | arr xs =>
    cases xs with
    | nil =>
      simp [strV] at h
      exact ⟨'[', _, h.symm, by decide, by decide, by decide⟩
    | cons hh tt =>
      rw [strV] at h
      cases hl : strL (.cons hh tt) with
      | none => rw [hl] at h; exact absurd h (by simp)
      | some l =>
        rw [hl] at h
        simp at h
        exact ⟨'[', _, h.symm, by decide, by decide, by decide⟩
  | obj ms =>
    cases ms with
    | nil =>
      simp [strV] at h
      exact ⟨'\x7b', _, h.symm, by decide, by decide, by decide⟩
    | cons k v tt =>
      rw [strV] at h
      cases hl : strM (.cons k v tt) with
      | none => rw [hl] at h; exact absurd h (by simp)
      | some l =>
        rw [hl] at h
        simp at h
        exact ⟨'\x7b', _, h.symm, by decide, by decide, by decide⟩
  | unserializable => exact absurd h (by simp [strV])

theorem strL_cons_head {hh : JsValue} {tt : JsList} {l : List Char}
    (h : strL (.cons hh tt) = some l) :
    ∃ c X, l = c :: X ∧ isWsChar c = false ∧ c ≠ ']' ∧ c ≠ '\x7d' := by
  rw [strL] at h
  cases hsh : strV hh with
  | none => rw [hsh] at h; exact absurd h (by simp)
  | some sh =>
    cases hst : strL tt with
    | none => rw [hsh, hst] at h; exact absurd h (by simp)
    | some st =>
      rw [hsh, hst] at h
      simp at h
      obtain ⟨c, cs, heq, hws, h1, h2⟩ := strV_head hh sh hsh
      subst heq
      cases tt with
      | nil =>
        simp at h
        refine ⟨c, cs, ?_, hws, h1, h2⟩
        exact h.symm
      | cons t1 t2 =>
        simp at h
        refine ⟨c, cs ++ ',' :: st, ?_, hws, h1, h2⟩
        exact h.symm

theorem strM_cons_head {k : String} {v : JsValue} {tt : JsFields} {l : List Char}
    (h : strM (.cons k v tt) = some l) :
    ∃ X, l = '"' :: X := by
  rw [strM] at h
  cases hsv : strV v with
  | none => rw [hsv] at h; exact absurd h (by simp)
  | some sv =>
    cases hst : strM tt with
    | none => rw [hsv, hst] at h; exact absurd h (by simp)
    | some st =>
      rw [hsv, hst] at h
      simp at h
      cases tt with
      | nil =>
        simp at h
        refine ⟨escChars k.data ++ ('"' :: ':' :: (sv ++ [])), ?_⟩
        rw [← h]
        simp [strLit]
      | cons k2 v2 t2 =>
        simp at h
        refine ⟨escChars k.data ++ ('"' :: ':' :: (sv ++ ',' :: st)), ?_⟩
        rw [← h]
        simp [strLit]


mutual

theorem szV_le : ∀ v s, strV v = some s → szV v ≤ s.length
  | .null, s, h => by
    simp [strV] at h
    subst h
    simp [szV]
  | .bool b, s, h => by
    cases b <;> simp [strV] at h <;> subst h <;> simp [szV]
  | .num n, s, h => by
    simp [strV] at h
    subst h
    rw [szV, intChars]
    by_cases hn : n < 0
    · simp [hn]
    · rw [if_neg hn]
      obtain ⟨c, cs, he, -⟩ := natChars_head n.toNat
      simp [he]
  | .str s0, s, h => by
    simp [strV] at h
    subst h
    simp [szV, strLit]
  | .arr .nil, s, h => by
    simp [strV] at h
    subst h
    simp [szV, szL]
  | .arr (.cons hh tt), s, h => by
    rw [strV] at h
    cases hl : strL (.cons hh tt) with
    | none => rw [hl] at h; exact absurd h (by simp)
    | some l =>
      rw [hl] at h
      simp at h
      subst h
      have := szL_le (.cons hh tt) l hl
      simp [szV]
      omega
  | .obj .nil, s, h => by
    simp [strV] at h
    subst h
    simp [szV, szM]
  | .obj (.cons k v tt), s, h => by
    rw [strV] at h
    cases hl : strM (.cons k v tt) with
    | none => rw [hl] at h; exact absurd h (by simp)
    | some l =>
      rw [hl] at h
      simp at h
      subst h
      have := szM_le (.cons k v tt) l hl
      simp [szV]
      omega
  | .unserializable, s, h => by
    exact absurd h (by simp [strV])

theorem szL_le : ∀ xs s, strL xs = some s → szL xs ≤ s.length + 1
  | .nil, s, h => by
    simp [strL] at h
    subst h
    simp [szL]
  | .cons hh tt, s, h => by
    rw [strL] at h
    cases hsh : strV hh with
    | none => rw [hsh] at h; exact absurd h (by simp)
    | some sh =>
      cases hst : strL tt with
      | none => rw [hsh, hst] at h; exact absurd h (by simp)
      | some st =>
        rw [hsh, hst] at h
        simp at h
        have h1 := szV_le hh sh hsh
        have h2 := szL_le tt st hst
        cases tt with
        | nil =>
          simp at h
          subst h
          simp [szL, szV] at h2 ⊢
          omega
        | cons t1 t2 =>
          simp at h
          subst h
          rw [szL]
          simp
          omega

theorem szM_le : ∀ ms s, strM ms = some s → szM ms ≤ s.length + 1
  | .nil, s, h => by
    simp [strM] at h
    subst h
    simp [szM]
  | .cons k v tt, s, h => by
    rw [strM] at h
    cases hsv : strV v with
    | none => rw [hsv] at h; exact absurd h (by simp)
    | some sv =>
      cases hst : strM tt with
      | none => rw [hsv, hst] at h; exact absurd h (by simp)
      | some st =>
        rw [hsv, hst] at h
        simp at h
        have h1 := szV_le v sv hsv
        have h2 := szM_le tt st hst
        cases tt with
        | nil =>
          simp at h
          subst h
          simp [szM, szV] at h2 ⊢
          omega
        | cons k2 v2 t2 =>
          simp at h
          subst h
          rw [szM]
          simp [strLit]
          omega

end

theorem parse_round : ∀ fuel : Nat,
    (∀ v s rest, strV v = some s → szV v < fuel → headNotDigit rest →
      parseVal fuel (s ++ rest) = some (v, rest)) ∧
    (∀ xs s rest, strL xs = some s → szL xs < fuel → xs ≠ JsList.nil →
      parseElems fuel (s ++ ']' :: rest) = some (xs, rest)) ∧
    (∀ ms s rest, strM ms = some s → szM ms < fuel → ms ≠ JsFields.nil →
      parseMembers fuel (s ++ '\x7d' :: rest) = some (ms, rest)) := by
  intro fuel
  induction fuel with
  | zero =>
    refine ⟨?_, ?_, ?_⟩
    · intro v s rest _ hsz _; omega
    · intro xs s rest _ hsz _; omega
    · intro ms s rest _ hsz _; omega
  | succ fuel ih =>
    obtain ⟨ihV, ihL, ihM⟩ := ih
    refine ⟨?_, ?_, ?_⟩
    · intro v s rest hstr hsz hnd
      cases v with
      | null =>
        simp [strV] at hstr
        subst hstr
        exact parseVal_succ_null fuel rest
      | bool b =>
        cases b
        · simp [strV] at hstr
          subst hstr
          exact parseVal_succ_false fuel rest
        · simp [strV] at hstr
          subst hstr
          exact parseVal_succ_true fuel rest
      | num n =>
        simp [strV] at hstr
        subst hstr
        rw [intChars]
        by_cases hn : n < 0
        · rw [if_pos hn]
          obtain ⟨c, cs, he, hc⟩ := natChars_head n.natAbs
          rw [he]
          simp only [List.cons_append]
          rw [parseVal_succ_neg fuel hc (cs ++ rest)]
          rw [show readDigits 0 (c :: (cs ++ rest)) = (n.natAbs, rest) from by
            rw [show c :: (cs ++ rest) = natChars n.natAbs ++ rest from by
              rw [he, List.cons_append]]
            exact readDigits_natChars hnd]
          show some (JsValue.num (-(n.natAbs : Int)), rest) = some (JsValue.num n, rest)
          rw [show (-(n.natAbs : Int)) = n from by omega]
        · rw [if_neg hn]
          obtain ⟨c, cs, he, hc⟩ := natChars_head n.toNat
          rw [he]
          simp only [List.cons_append]
          rw [parseVal_succ_digit fuel hc (cs ++ rest)]
          rw [show readDigits 0 (c :: (cs ++ rest)) = (n.toNat, rest) from by
            rw [show c :: (cs ++ rest) = natChars n.toNat ++ rest from by
              rw [he, List.cons_append]]
            exact readDigits_natChars hnd]
          show some (JsValue.num ((n.toNat : Nat) : Int), rest) = some (JsValue.num n, rest)
          rw [show (((n.toNat : Nat) : Int)) = n from by omega]
      | str s0 =>
        simp [strV] at hstr
        subst hstr
        rw [strLit]
        simp only [List.cons_append, List.append_assoc, List.singleton_append,
          List.nil_append]
        rw [parseVal_succ_str fuel]
        rw [parseStrChars_esc]
      | arr xs =>
        cases xs with
        | nil =>
          simp [strV] at hstr
          subst hstr
          exact parseVal_succ_arrNil fuel rest
        | cons hh tt =>
          rw [strV] at hstr
          cases hl : strL (.cons hh tt) with
          | none => rw [hl] at hstr; exact absurd hstr (by simp)
          | some l =>
            rw [hl] at hstr
            simp at hstr
            subst hstr
            obtain ⟨c, X, hlx, hws, hne, -⟩ := strL_cons_head hl
            subst hlx
            rw [szV] at hsz
            simp only [List.cons_append, List.append_assoc, List.singleton_append,
              List.nil_append]
            rw [parseVal_succ_arr fuel hws hne (X ++ ']' :: rest)]
            rw [show parseElems fuel (c :: (X ++ ']' :: rest)) = some (JsList.cons hh tt, rest) from
              ihL (.cons hh tt) (c :: X) rest hl (by omega) (by simp)]
      | obj ms =>
        cases ms with
        | nil =>
          simp [strV] at hstr
          subst hstr
          exact parseVal_succ_objNil fuel rest
        | cons k v tt =>
          rw [strV] at hstr
          cases hl : strM (.cons k v tt) with
          | none => rw [hl] at hstr; exact absurd hstr (by simp)
          | some l =>
            rw [hl] at hstr
            simp at hstr
            subst hstr
            obtain ⟨X, hlx⟩ := strM_cons_head hl
            subst hlx
            rw [szV] at hsz
            simp only [List.cons_append, List.append_assoc, List.singleton_append,
              List.nil_append]
            rw [parseVal_succ_obj fuel (show isWsChar '"' = false by decide)
              (show ('"' : Char) ≠ '\x7d' by decide) (X ++ '\x7d' :: rest)]
            rw [show parseMembers fuel ('"' :: (X ++ '\x7d' :: rest)) =
                some (JsFields.cons k v tt, rest) from
              ihM (.cons k v tt) ('"' :: X) rest hl (by omega) (by simp)]
      | unserializable => exact absurd hstr (by simp [strV])
    · intro xs s rest hstr hsz hne
      cases xs with
      | nil => exact absurd rfl hne
      | cons hh tt =>
        rw [strL] at hstr
        cases hsh : strV hh with
        | none => rw [hsh] at hstr; exact absurd hstr (by simp)
        | some sh =>
          cases hst : strL tt with
          | none => rw [hsh, hst] at hstr; exact absurd hstr (by simp)
          | some st =>
            rw [hsh, hst] at hstr
            simp at hstr
            rw [szL] at hsz
            cases tt with
            | nil =>
              simp at hstr
              subst hstr
              simp only [parseElems]
              rw [show parseVal fuel (sh ++ ']' :: rest) = some (hh, ']' :: rest) from
                ihV hh sh (']' :: rest) hsh (by omega)
                  (by simp only [headNotDigit]; decide)]
              rfl
            | cons t1 t2 =>
              simp at hstr
              subst hstr
              simp only [parseElems, List.cons_append, List.append_assoc,
                List.nil_append]
              rw [show parseVal fuel (sh ++ ',' :: (st ++ ']' :: rest)) =
                  some (hh, ',' :: (st ++ ']' :: rest)) from
                ihV hh sh (',' :: (st ++ ']' :: rest)) hsh (by omega)
                  (by simp only [headNotDigit]; decide)]
              show (match parseElems fuel (st ++ ']' :: rest) with
                  | some (xs, r3) => some (JsList.cons hh xs, r3)
                  | none => none) = some (JsList.cons hh (JsList.cons t1 t2), rest)
              rw [show parseElems fuel (st ++ ']' :: rest) =
                  some (JsList.cons t1 t2, rest) from
                ihL (.cons t1 t2) st rest hst (by omega) (by simp)]
    · intro ms s rest hstr hsz hne
      cases ms with
      | nil => exact absurd rfl hne
      | cons k v tt =>
        rw [strM] at hstr
        cases hsv : strV v with
        | none => rw [hsv] at hstr; exact absurd hstr (by simp)
        | some sv =>
          cases hst : strM tt with
          | none => rw [hsv, hst] at hstr; exact absurd hstr (by simp)
          | some st =>
            rw [hsv, hst] at hstr
            simp at hstr
            rw [szM] at hsz
            cases tt with
            | nil =>
              simp at hstr
              subst hstr
              rw [strLit]
              simp only [parseMembers, List.cons_append, List.append_assoc,
                List.singleton_append, List.nil_append]
              rw [skipWs_cons_of (by decide)]
              show (match parseStrChars (escChars k.data ++ '"' :: (':' :: (sv ++ '\x7d' :: rest))) with
                  | none => none
                  | some (kcs, r1) =>
                    match skipWs r1 with
                    | [] => none
                    | c1 :: r2 =>
                      if c1 = ':' then
                        match parseVal fuel r2 with
                        | none => none
                        | some (v2, r3) =>
                          match skipWs r3 with
                          | [] => none
                          | c3 :: r4 =>
                            if c3 = ',' then
                              match parseMembers fuel r4 with
                              | some (ms, r5) => some (JsFields.cons (String.mk kcs) v2 ms, r5)
                              | none => none
                            else if c3 = '\x7d' then
                              some (JsFields.cons (String.mk kcs) v2 JsFields.nil, r4)
                            else none
                      else none) = some (JsFields.cons k v JsFields.nil, rest)
              rw [parseStrChars_esc]
              show (match parseVal fuel (sv ++ '\x7d' :: rest) with
                  | none => none
                  | some (v2, r3) =>
                    match skipWs r3 with
                    | [] => none
                    | c3 :: r4 =>
                      if c3 = ',' then
                        match parseMembers fuel r4 with
                        | some (ms, r5) => some (JsFields.cons k v2 ms, r5)
                        | none => none
                      else if c3 = '\x7d' then some (JsFields.cons k v2 JsFields.nil, r4)
                      else none) = some (JsFields.cons k v JsFields.nil, rest)
              rw [show parseVal fuel (sv ++ '\x7d' :: rest) = some (v, '\x7d' :: rest) from
                ihV v sv ('\x7d' :: rest) hsv (by omega)
                  (by simp only [headNotDigit]; decide)]
              rfl
            | cons k2 v2 t2 =>
              simp at hstr
              subst hstr
              rw [strLit]
              simp only [parseMembers, List.cons_append, List.append_assoc,
                List.singleton_append, List.nil_append]
              rw [skipWs_cons_of (by decide)]
              show (match parseStrChars (escChars k.data ++ '"' :: (':' :: (sv ++ ',' :: (st ++ '\x7d' :: rest)))) with
                  | none => none
                  | some (kcs, r1) =>
                    match skipWs r1 with
                    | [] => none
                    | c1 :: r2 =>
                      if c1 = ':' then
                        match parseVal fuel r2 with
                        | none => none
                        | some (w, r3) =>
                          match skipWs r3 with
                          | [] => none
                          | c3 :: r4 =>
                            if c3 = ',' then
                              match parseMembers fuel r4 with
                              | some (ms, r5) => some (JsFields.cons (String.mk kcs) w ms, r5)
                              | none => none
                            else if c3 = '\x7d' then
                              some (JsFields.cons (String.mk kcs) w JsFields.nil, r4)
                            else none
                      else none) =
                some (JsFields.cons k v (JsFields.cons k2 v2 t2), rest)
              rw [parseStrChars_esc]
              show (match parseVal fuel (sv ++ ',' :: (st ++ '\x7d' :: rest)) with
                  | none => none
                  | some (w, r3) =>
                    match skipWs r3 with
                    | [] => none
                    | c3 :: r4 =>
                      if c3 = ',' then
                        match parseMembers fuel r4 with
                        | some (ms, r5) => some (JsFields.cons k w ms, r5)
                        | none => none
                      else if c3 = '\x7d' then some (JsFields.cons k w JsFields.nil, r4)
                      else none) =
                some (JsFields.cons k v (JsFields.cons k2 v2 t2), rest)
              rw [show parseVal fuel (sv ++ ',' :: (st ++ '\x7d' :: rest)) =
                  some (v, ',' :: (st ++ '\x7d' :: rest)) from
                ihV v sv (',' :: (st ++ '\x7d' :: rest)) hsv (by omega)
                  (by simp only [headNotDigit]; decide)]
              show (match parseMembers fuel (st ++ '\x7d' :: rest) with
                  | some (ms, r5) => some (JsFields.cons k v ms, r5)
                  | none => none) =
                some (JsFields.cons k v (JsFields.cons k2 v2 t2), rest)
              rw [show parseMembers fuel (st ++ '\x7d' :: rest) =
                  some (JsFields.cons k2 v2 t2, rest) from
                ihM (.cons k2 v2 t2) st rest hst (by omega) (by simp)]

/-- Round trip: any output of the JSON.stringify model is parsed back to
the exact value by the JSON.parse model. -/
theorem stringify_parse : ∀ v s, stringify v = some s → parse s = some v := by
  intro v s h
  rw [stringify] at h
  cases hv : strV v with
  | none => rw [hv] at h; exact absurd h (by simp)
  | some cs =>
    rw [hv] at h
    simp at h
    subst h
    show parseChars cs = some v
    rw [parseChars]
    have hb := szV_le v cs hv
    obtain ⟨P, -, -⟩ := parse_round (2 * cs.length + 2)
    have hp := P v cs [] hv (by omega) trivial
    rw [List.append_nil] at hp
    rw [hp]
    rfl

theorem jsIndexOfFrom_neg : ∀ (l : List Nat) (x : Nat) (i : Nat),
    (jsIndexOfFrom l x i < 0 ↔ x ∉ l) := by
  intro l
  induction l with
  | nil => intro x i; simp [jsIndexOfFrom]
  | cons y ys ih =>
    intro x i
    by_cases h : y = x
    · subst h
      rw [jsIndexOfFrom, if_pos rfl]
      constructor
      · intro hlt
        exact absurd hlt (by omega)
      · intro hn
        exact absurd (List.mem_cons_self y ys) hn
    · rw [jsIndexOfFrom, if_neg h, ih]
      constructor
      · intro hn hmem
        rcases List.mem_cons.mp hmem with he | hm
        · exact h he.symm
        · exact hn hm
      · intro hn hm
        exact hn (List.mem_cons_of_mem y hm)

theorem jsIndexOf_neg (l : List Nat) (x : Nat) : (jsIndexOf l x < 0 ↔ x ∉ l) :=
  jsIndexOfFrom_neg l x 0

theorem hLookup_append : ∀ (a b : HeaderList) (name : String),
    hLookup (a ++ b) name =
      match hLookup b name with
      | some w => some w
      | none => hLookup a name := by
  intro a
  induction a with
  | nil =>
    intro b name
    simp [hLookup]
    cases hLookup b name <;> rfl
  | cons kv t ih =>
    intro b name
    obtain ⟨k, v⟩ := kv
    rw [List.cons_append, hLookup, ih]
    cases hLookup b name with
    | none => rfl
    | some w =>
      cases ht : hLookup t name <;> rfl

theorem hLookup_flatAll : ∀ (frags : List HeaderList) (name : String),
    hLookup (flatAll frags) name = lastDefined frags name := by
  intro frags
  induction frags with
  | nil => intro name; rfl
  | cons h t ih =>
    intro name
    rw [flatAll, lastDefined, hLookup_append, ih]

theorem runAll_config : ∀ (invs : List Invoke) (e : Endpoint),
    (Endpoint.runAll e invs).config = e.config := by
  intro invs
  induction invs with
  | nil => intro e; rfl
  | cons i is ih =>
    intro e
    rw [Endpoint.runAll, ih]
    cases i <;> rfl

/-- C1: constructing an Endpoint from a Config with method, base and
expect omitted yields method POST, base "" and expect [200]; an expect
given as a single status is normalized to a one-element array. -/
theorem trpc_c1 :
    (∀ c : Config, c.method = none → c.base = none → c.expect = none →
      (Endpoint.construct (.config c)).method = "POST" ∧
      (Endpoint.construct (.config c)).base = "" ∧
      (Endpoint.construct (.config c)).expect = [200]) ∧
    (∀ (c : Config) (s : Nat), c.expect = some (.one s) →
      (Endpoint.construct (.config c)).expect = [s]) := by
  constructor
  · intro c hm hb he
    refine ⟨?_, ?_, ?_⟩ <;>
      simp [Endpoint.construct, Endpoint.fromConfig, jsOrStr, normExpect, hm, hb, he]
  · intro c s he
    simp [Endpoint.construct, Endpoint.fromConfig, normExpect, he]

theorem trpc_c1_witness :
    ((Endpoint.construct (.config
        { method := none, base := none, path := some "/echo", expect := none })).method = "POST" ∧
     (Endpoint.construct (.config
        { method := none, base := none, path := some "/echo", expect := none })).base = "" ∧
     (Endpoint.construct (.config
        { method := none, base := none, path := some "/echo", expect := none })).expect = [200]) ∧
    (Endpoint.construct (.config
        { method := none, base := none, path := some "/echo", expect := some (.one 201) })).expect = [201] :=
  ⟨trpc_c1.1 _ rfl rfl rfl, trpc_c1.2 _ 201 rfl⟩

/-- C2: when the sender resolves with a status outside the configured
expect array, call rejects with an unexpected-status error carrying that
status and the raw body, without parsing the body as JSON (the body may
be arbitrary, not JSON). -/
theorem trpc_c2 : ∀ (cfg : StrictConfig) (sender : Sender) (data : JsValue)
    (frags : List HeaderList) (body : String) (res : SenderResponse),
    stringify data = some body →
    sender (mkSenderRequest cfg body frags) = Except.ok res →
    res.status ∉ cfg.expect →
    callCfg cfg sender data frags = .error (.unexpectedStatus res.status res.body) := by
  intro cfg sender data frags body res hs hsend hmem
  simp only [callCfg, hs, finishCall, hsend]
  rw [if_pos ((jsIndexOf_neg _ _).mpr hmem)]

theorem trpc_c2_witness :
    callCfg cfgExpect201 senderOk200 (.obj .nil) [] =
      .error (.unexpectedStatus 200 "ok") :=
  trpc_c2 cfgExpect201 senderOk200 (.obj .nil) [] "\x7b\x7d"
    { body := "ok", status := 200 } rfl rfl (by decide)

/-- C3: when the sender resolves with an expected status and a JSON
body, call resolves with the parsed body; and parsing is a left inverse
of serialization, so JSON.parse of JSON.stringify of any serializable
value gives back that value. -/
theorem trpc_c3 :
    (∀ (cfg : StrictConfig) (sender : Sender) (data : JsValue)
        (frags : List HeaderList) (body : String) (res : SenderResponse) (v : JsValue),
      stringify data = some body →
      sender (mkSenderRequest cfg body frags) = Except.ok res →
      res.status ∈ cfg.expect →
      parse res.body = some v →
      callCfg cfg sender data frags = .ok v) ∧
    (∀ (v : JsValue) (s : String), stringify v = some s → parse s = some v) := by
  constructor
  · intro cfg sender data frags body res v hs hsend hmem hparse
    simp only [callCfg, hs, finishCall, hsend]
    rw [if_neg (fun hlt => (jsIndexOf_neg _ _).mp hlt hmem)]
    simp only [hparse]
  · exact stringify_parse

theorem trpc_c3_witness :
    callCfg cfgEcho senderJson42 (.obj .nil) [] = .ok vObj42 ∧
    parse "42" = some (.num 42) :=
  ⟨trpc_c3.1 cfgEcho senderJson42 (.obj .nil) [] "\x7b\x7d"
      { body := "\x7b\"v\":42\x7d", status := 200 } vObj42 rfl rfl (by decide) rfl,
   trpc_c3.2 (.num 42) "42" rfl⟩

/-- C4: call hands the sender exactly the request built by
mkSenderRequest, and for every header name the value in that request is
the one from the rightmost fragment defining the name, falling back to
the default mapping with Content-Type: application/json. -/
theorem trpc_c4 : ∀ (cfg : StrictConfig) (data : JsValue)
    (frags : List HeaderList) (body : String),
    stringify data = some body →
    ((∀ sender : Sender, callCfg cfg sender data frags =
        finishCall cfg (sender (mkSenderRequest cfg body frags))) ∧
     (∀ name : String, hLookup (mkSenderRequest cfg body frags).headers name =
        match lastDefined frags name with
        | some v => some v
        | none => hLookup defaultHeaders name)) := by
  intro cfg data frags body hs
  constructor
  · intro sender
    simp only [callCfg, hs]
  · intro name
    show hLookup (defaultHeaders ++ flatAll frags) name = _
    rw [hLookup_append, hLookup_flatAll]

theorem trpc_c4_witness :
    (callCfg cfgEcho senderJson42 (.obj .nil)
        [[("Content-Type", "text/plain"), ("A", "1")], [("A", "2")]] =
      finishCall cfgEcho (senderJson42 (mkSenderRequest cfgEcho "\x7b\x7d"
        [[("Content-Type", "text/plain"), ("A", "1")], [("A", "2")]]))) ∧
    hLookup (mkSenderRequest cfgEcho "\x7b\x7d"
        [[("Content-Type", "text/plain"), ("A", "1")], [("A", "2")]]).headers
      "Content-Type" = some "text/plain" ∧
    hLookup (mkSenderRequest cfgEcho "\x7b\x7d"
        [[("Content-Type", "text/plain"), ("A", "1")], [("A", "2")]]).headers
      "A" = some "2" ∧
    hLookup (mkSenderRequest cfgEcho "\x7b\x7d"
        [[("Content-Type", "text/plain"), ("A", "1")], [("A", "2")]]).headers
      "Content-Length" = none := by
  obtain ⟨h1, h2⟩ := trpc_c4 cfgEcho (.obj .nil)
    [[("Content-Type", "text/plain"), ("A", "1")], [("A", "2")]] "\x7b\x7d" rfl
  refine ⟨h1 senderJson42, ?_, ?_, ?_⟩
  · rw [h2 "Content-Type"]
    rfl
  · rw [h2 "A"]
    rfl
  · rw [h2 "Content-Length"]
    rfl

/-- C5: a request whose path or method differs from the configured ones
is passed on with next() regardless of the user handler, which is never
consulted and no response is sent. -/
theorem trpc_c5 : ∀ (cfg : StrictConfig) (uh : UserHandler) (req : Request),
    (req.path ≠ cfg.path ∨ req.method ≠ cfg.method) →
    handlerCfg cfg uh req = .next := by
  intro cfg uh req h
  rw [handlerCfg]
  by_cases hp : req.path = cfg.path
  · have hm : req.method ≠ cfg.method := by
      rcases h with h | h
      · exact absurd hp h
      · exact h
    rw [if_neg (not_not_intro hp), if_pos hm]
  · rw [if_pos hp]

theorem trpc_c5_witness :
    handlerCfg cfgFoo uhConst1 reqFooGet = .next ∧
    handlerCfg cfgFoo uhConst1 reqBarPost = .next :=
  ⟨trpc_c5 cfgFoo uhConst1 reqFooGet (Or.inr (by decide)),
   trpc_c5 cfgFoo uhConst1 reqBarPost (Or.inl (by decide))⟩

/-- C6: for a matching request with no response sent yet, a JSON body
and a user handler that returns a serializable value without sending,
the produced handler responds with status 200, Content-Type
application/json and body JSON.stringify of the returned value. -/
theorem trpc_c6 : ∀ (cfg : StrictConfig) (uh : UserHandler) (req : Request)
    (d v : JsValue) (raw : String),
    req.path = cfg.path → req.method = cfg.method → req.headersSent = false →
    parse req.body = some d → uh d req = .ok v false → stringify v = some raw →
    handlerCfg cfg uh req = .respond 200 "application/json" raw := by
  intro cfg uh req d v raw hp hm hs hparse huh hser
  rw [handlerCfg, if_neg (not_not_intro hp), if_neg (not_not_intro hm),
    if_neg (by simp [hs])]
  simp only [hparse, huh, hser]
  simp

theorem trpc_c6_witness :
    handlerCfg cfgFoo uhConst1 reqFooPost = .respond 200 "application/json" "1" :=
  trpc_c6 cfgFoo uhConst1 reqFooPost (.obj .nil) (.num 1) "1"
    rfl rfl rfl rfl rfl rfl

/-- C7: for a matching request the produced handler forwards an error
with next(error) and sends no response when the response was already
sent on entry, when the body is not valid JSON, when the user handler
throws, and when the user handler itself sent the response. -/
theorem trpc_c7 :
    (∀ (cfg : StrictConfig) (uh : UserHandler) (req : Request),
      req.path = cfg.path → req.method = cfg.method → req.headersSent = true →
      handlerCfg cfg uh req = .nextWithError .responseAlreadySent) ∧
    (∀ (cfg : StrictConfig) (uh : UserHandler) (req : Request),
      req.path = cfg.path → req.method = cfg.method → req.headersSent = false →
      parse req.body = none →
      handlerCfg cfg uh req = .nextWithError (.requestParseFailed req.body)) ∧
    (∀ (cfg : StrictConfig) (uh : UserHandler) (req : Request) (d : JsValue) (m : String),
      req.path = cfg.path → req.method = cfg.method → req.headersSent = false →
      parse req.body = some d → uh d req = .thrown m →
      handlerCfg cfg uh req = .nextWithError (.handlerThrew m)) ∧
    (∀ (cfg : StrictConfig) (uh : UserHandler) (req : Request) (d v : JsValue),
      req.path = cfg.path → req.method = cfg.method → req.headersSent = false →
      parse req.body = some d → uh d req = .ok v true →
      handlerCfg cfg uh req = .nextWithError .responseSentByHandler) := by
  refine ⟨?_, ?_, ?_, ?_⟩
  · intro cfg uh req hp hm hs
    rw [handlerCfg, if_neg (not_not_intro hp), if_neg (not_not_intro hm), if_pos hs]
  · intro cfg uh req hp hm hs hparse
    rw [handlerCfg, if_neg (not_not_intro hp), if_neg (not_not_intro hm),
      if_neg (by simp [hs])]
    simp only [hparse]
  · intro cfg uh req d m hp hm hs hparse huh
    rw [handlerCfg, if_neg (not_not_intro hp), if_neg (not_not_intro hm),
      if_neg (by simp [hs])]
    simp only [hparse, huh]
  · intro cfg uh req d v hp hm hs hparse huh
    rw [handlerCfg, if_neg (not_not_intro hp), if_neg (not_not_intro hm),
      if_neg (by simp [hs])]
    simp only [hparse, huh]
    simp

theorem trpc_c7_witness :
    handlerCfg cfgFoo uhConst1 reqFooPostSent = .nextWithError .responseAlreadySent ∧
    handlerCfg cfgFoo uhConst1 reqFooPostBadBody =
      .nextWithError (.requestParseFailed "ok") ∧
    handlerCfg cfgFoo uhThrows reqFooPost = .nextWithError (.handlerThrew "boom") ∧
    handlerCfg cfgFoo uhSends reqFooPost = .nextWithError .responseSentByHandler :=
  ⟨trpc_c7.1 cfgFoo uhConst1 reqFooPostSent rfl rfl rfl,
   trpc_c7.2.1 cfgFoo uhConst1 reqFooPostBadBody rfl rfl rfl rfl,
   trpc_c7.2.2.1 cfgFoo uhThrows reqFooPost (.obj .nil) "boom" rfl rfl rfl rfl rfl,
   trpc_c7.2.2.2 cfgFoo uhSends reqFooPost (.obj .nil) (.num 1) rfl rfl rfl rfl rfl⟩

/-- C8: evaluation of the code at the failing input.  For a matching
request whose user handler returns an unserializable value without
sending, the produced handler returns the constructed Error object from
the async callback (line 203 reads `return this.error(...)`, not
`return next(this.error(...))`): the error is not forwarded to next and
no response is sent, against the documented error-forwarding design. -/
theorem trpc_c8_bug_eval :
    handlerCfg cfgFoo uhCircular reqFooPost = .errorReturned .responseStringifyFailed := by
  rfl

/-- C9: the configuration normalized at construction is unchanged by
any sequence of call and handler invocations. -/
theorem trpc_c9 : ∀ (poc : PathOrConfig) (invs : List Invoke),
    (Endpoint.runAll (Endpoint.make poc) invs).config = Endpoint.construct poc := by
  intro poc invs
  rw [runAll_config]
  rfl

/-- C10: constructing from a bare string is constructing from a Config
holding only that path, and every falsy (absent or empty) path, base or
method field is replaced by "/", "" and "POST" respectively; the
constructor is a total function on these inputs. -/
theorem trpc_c10 :
    (∀ p : String, Endpoint.construct (.pathStr p) =
      Endpoint.fromConfig { method := none, base := none, path := some p, expect := none }) ∧
    (∀ c : Config,
      ((c.path = none ∨ c.path = some "") → (Endpoint.construct (.config c)).path = "/") ∧
      ((c.base = none ∨ c.base = some "") → (Endpoint.construct (.config c)).base = "") ∧
      ((c.method = none ∨ c.method = some "") →
        (Endpoint.construct (.config c)).method = "POST")) := by
  constructor
  · intro p
    rfl
  · intro c
    refine ⟨?_, ?_, ?_⟩
    · rintro (h | h) <;> simp [Endpoint.construct, Endpoint.fromConfig, jsOrStr, h]
    · rintro (h | h) <;> simp [Endpoint.construct, Endpoint.fromConfig, jsOrStr, h]
    · rintro (h | h) <;> simp [Endpoint.construct, Endpoint.fromConfig, jsOrStr, h]

theorem trpc_c10_witness :
    Endpoint.construct (.pathStr "") =
      Endpoint.fromConfig { method := none, base := none, path := some "", expect := none } ∧
    (Endpoint.construct (.config
      { method := some "", base := some "", path := some "", expect := none })).path = "/" ∧
    (Endpoint.construct (.config
      { method := some "", base := some "", path := some "", expect := none })).base = "" ∧
    (Endpoint.construct (.config
      { method := some "", base := some "", path := some "", expect := none })).method = "POST" :=
  ⟨trpc_c10.1 "",
   (trpc_c10.2 _).1 (Or.inr rfl),
   (trpc_c10.2 _).2.1 (Or.inr rfl),
   (trpc_c10.2 _).2.2 (Or.inr rfl)⟩
